import Mathlib

set_option maxRecDepth 40000

/-!
A verification development for the MIDI file decoder in src/src/midi/lib.rs.

Modelling conventions for the shallow embedding:

- A Rust byte buffer (a slice of u8) is a `List Nat` whose entries are byte
  values.  Indexing `buf[i]` is `byteAt buf i` below.
- Rust code here can abort the task in two ways: an out of bounds index and a
  failed `assert!`.  Both are embedded as `Except.error ()`.  A Rust function
  returning `Option T` therefore becomes `Except Unit (Option T)`:
  `Except.ok (some x)` is `Some(x)`, `Except.ok none` is `None` (an explicit
  decode failure), and `Except.error ()` is a crash.
- Machine integers (u8, u16, u32) become `Nat`.  Every arithmetic step of the
  source stays strictly below the width of the machine type that carries it
  (data bytes are masked to 7 bits before they are shifted by at most 24, and
  byte values below 256 are shifted by at most 24 into a u32), so no modular
  correction is required for byte-valued inputs.
- Short circuit evaluation of `||` over panicking operands is preserved by
  sequencing the reads in the `Except` monad.
-/

/-- MIDI files can have one of three formats, defined in the header of the file. -/
inductive FileFormat where
  | SingleTrack
  | MultipleSynchronous
  | MultipleAsynchronous
  deriving DecidableEq, Repr

/-- The various commands a MidiMessage can contain, as in the source enum. -/
inductive MidiMessage where
  | NoteOff (channel key velocity : Nat)
  | NoteOn (channel key velocity : Nat)
  | Aftertouch (channel key velocity : Nat)
  | ControlChange (channel controller value : Nat)
  | ProgramChange (channel new_program : Nat)
  | ChannelPressure (channel value : Nat)
  | PitchWheel (channel lsb msb : Nat)
  | SystemExclusive (amei : Nat) (nope : Nat)
  | MidiTimeCode (message_type values : Nat)
  | SongPositionPointer (lsb msb : Nat)
  | SongSelect (song : Nat)
  | TuneRequest
  | MidiClock
  | MidiStart
  | MidiContinue
  | MidiStop
  | ActiveSense
  | Reset
  | InvalidStatus
  deriving DecidableEq, Repr

/-- A MidiHeader contains the FileFormat, the number of tracks, and the ticks
per quarter note. -/
structure MidiHeader where
  file_format : FileFormat
  num_tracks : Nat
  ticks_per_quarter : Nat
  deriving DecidableEq, Repr

/-- A MidiEvent is a delta time and a message. -/
structure MidiEvent where
  delta_time : Nat
  message : MidiMessage
  deriving DecidableEq, Repr

/-- A MidiTrack contains its own length and the list of events. -/
structure MidiTrack where
  track_length : Nat
  events : List MidiEvent
  deriving DecidableEq, Repr

/-- A MidiFile contains a Header and a list of Tracks. -/
structure MidiFile where
  header : MidiHeader
  tracks : List MidiTrack
  deriving DecidableEq, Repr

/-- Contextual data needed to read a track: the read offset and the status
byte of the previous message, for running mode. -/
structure ContinueTrackRead where
  offset : Nat
  last_status : Nat
  deriving DecidableEq, Repr

/-- Reading `buf[i]` in Rust; an out of bounds index aborts the task, which is
the `Except.error ()` outcome. -/
def byteAt (buf : List Nat) (i : Nat) : Except Unit Nat :=
  match buf.get? i with
  | some b => .ok b
  | none => .error ()

/-- fn u16_from_u8_at: big endian 16 bit read at an offset. -/
def u16_from_u8_at (buf : List Nat) (offset : Nat) : Except Unit Nat := do
  let a ← byteAt buf offset
  let b ← byteAt buf (offset + 1)
  pure ((a <<< 8) ||| b)

/-- fn u32_from_u8_at: big endian 32 bit read at an offset. -/
def u32_from_u8_at (buf : List Nat) (offset : Nat) : Except Unit Nat := do
  let a ← byteAt buf offset
  let b ← byteAt buf (offset + 1)
  let c ← byteAt buf (offset + 2)
  let d ← byteAt buf (offset + 3)
  pure ((a <<< 24) ||| (b <<< 16) ||| (c <<< 8) ||| d)

/-- fn get_track_size: the declared payload length of a track chunk, read from
the four bytes after the 4 byte magic at the chunk offset. -/
def get_track_size (buf : List Nat) (offset : Nat) : Except Unit Nat :=
  u32_from_u8_at buf (offset + 4)

/-- fn file_format_from_u16. -/
def file_format_from_u16 (value : Nat) : Option FileFormat :=
  match value with
  | 1 => some .SingleTrack
  | 2 => some .MultipleSynchronous
  | 3 => some .MultipleAsynchronous
  | _ => none

/-- fn msb_is_one: number > 127. -/
def msb_is_one (number : Nat) : Bool :=
  decide (127 < number)

/-- fn lower_seven_bits: number AND 0b01111111. -/
def lower_seven_bits (number : Nat) : Nat :=
  number &&& 127

/-- fn is_invalid_status_byte: the match arm 0 .. 0x7F | 0xF4 | 0xF5 | 0xF7
| 0xF9 (the range pattern of that Rust era is inclusive at both ends). -/
def is_invalid_status_byte (byte : Nat) : Bool :=
  decide (byte ≤ 0x7F) || decide (byte = 0xF4) || decide (byte = 0xF5) ||
    decide (byte = 0xF7) || decide (byte = 0xF9)

/-- fn get_status_byte: the inverse mapping from a message back to its status
byte.  The Rust catch all arm is reached only by InvalidStatus. -/
def get_status_byte (message : MidiMessage) : Nat :=
  match message with
  | .NoteOff c _ _ => 0x80 ||| c
  | .NoteOn c _ _ => 0x90 ||| c
  | .Aftertouch c _ _ => 0xA0 ||| c
  | .ControlChange c _ _ => 0xB0 ||| c
  | .ProgramChange c _ => 0xC0 ||| c
  | .ChannelPressure c _ => 0xD0 ||| c
  | .PitchWheel c _ _ => 0xE0 ||| c
  | .SystemExclusive _ _ => 0xF0
  | .MidiTimeCode _ _ => 0xF1
  | .SongPositionPointer _ _ => 0xF2
  | .SongSelect _ => 0xF3
  | .TuneRequest => 0xF6
  | .MidiClock => 0xF8
  | .MidiStart => 0xFA
  | .MidiContinue => 0xFB
  | .MidiStop => 0xFC
  | .ActiveSense => 0xFE
  | .Reset => 0xFF
  | .InvalidStatus => 0xFD

/-- fn parse_header: parses the first 14 bytes, which comprise a MIDI header.
The `err` chain preserves the short circuit order of the Rust `||`: byte i+1
is read only when all earlier magic bytes matched.  Byte values: M = 77,
T = 84, h = 104, d = 100. -/
def parse_header (buf : List Nat) : Except Unit (Option MidiHeader) := do
  let b0 ← byteAt buf 0
  let err ←
    if b0 ≠ 77 then pure true else do
      let b1 ← byteAt buf 1
      if b1 ≠ 84 then pure true else do
        let b2 ← byteAt buf 2
        if b2 ≠ 104 then pure true else do
          let b3 ← byteAt buf 3
          if b3 ≠ 100 then pure true else do
            let b4 ← byteAt buf 4
            if b4 ≠ 0 then pure true else do
              let b5 ← byteAt buf 5
              if b5 ≠ 0 then pure true else do
                let b6 ← byteAt buf 6
                if b6 ≠ 0 then pure true else do
                  let b7 ← byteAt buf 7
                  pure (decide (b7 ≠ 6))
  if err then
    pure none
  else do
    let ff ← u16_from_u8_at buf 8
    let num_tracks ← u16_from_u8_at buf 10
    let ticks_per_quarter ← u16_from_u8_at buf 12
    match file_format_from_u16 ff with
    | some x =>
        pure (some { file_format := x, num_tracks := num_tracks,
                     ticks_per_quarter := ticks_per_quarter })
    | none => pure none

/-- The inner while loop of fn parse_ticks that combines the stored 7 bit
groups: for loop_offset from 0 while loop_offset <= time_offset, OR in
(time_buffer[loop_offset] << (8 * byte_correction)) >> byte_correction where
byte_correction = time_offset - loop_offset.  All values stay below 2^32. -/
def ticks_combine (time_buffer : List Nat) (time_offset loop_offset time_ticks : Nat) : Nat :=
  if _h : loop_offset ≤ time_offset then
    let byte_correction := time_offset - loop_offset
    let contribution :=
      ((time_buffer.getD loop_offset 0) <<< (8 * byte_correction)) >>> byte_correction
    ticks_combine time_buffer time_offset (loop_offset + 1) (time_ticks ||| contribution)
  else
    time_ticks
termination_by time_offset + 1 - loop_offset
decreasing_by omega

/-- The loop of fn parse_ticks.  Each iteration first runs
assert!(time_offset < 4) — its failure is the `Except.error ()` outcome,
before any 5th byte could be read — then reads the current byte, stores its
low 7 bits, and either continues (high bit set) or combines the groups. -/
def parse_ticks_loop (buf : List Nat) (offset : Nat) (time_buffer : List Nat)
    (time_offset : Nat) : Except Unit (Nat × Nat) :=
  if _h : time_offset < 4 then do
    let curr ← byteAt buf (offset + time_offset)
    let tb := time_buffer.set time_offset (lower_seven_bits curr)
    if msb_is_one curr then
      parse_ticks_loop buf offset tb (time_offset + 1)
    else
      pure (ticks_combine tb time_offset 0 0, offset + time_offset + 1)
  else
    .error ()
termination_by 4 - time_offset
decreasing_by omega

/-- fn parse_ticks: the variable length delta time decoder.  Returns the tick
count and the offset just past the consumed bytes. -/
def parse_ticks (buf : List Nat) (offset : Nat) : Except Unit (Nat × Nat) :=
  parse_ticks_loop buf offset [0, 0, 0, 0] 0

/-- fn parse_message.  The byte at start_offset is classified: an invalid
status byte means running mode (reuse last_status, do not advance), otherwise
it is consumed as the fresh status.  Then dispatch on the high nibble, and for
0xF0 on the low nibble.  The source computes status_byte and data_offset in
one if; they are split into two ifs on the same condition here. -/
def parse_message (buf : List Nat) (start_offset : Nat) (last_status : Nat) :
    Except Unit (Option (MidiMessage × Nat)) := do
  let b ← byteAt buf start_offset
  let status_byte := if is_invalid_status_byte b then last_status else b
  let data_offset := if is_invalid_status_byte b then start_offset else start_offset + 1
  let status_pattern := status_byte &&& 0xF0
  let channel_number := status_byte &&& 0x0F
  match status_pattern with
  | 0x80 => do
      let k ← byteAt buf data_offset
      let v ← byteAt buf (data_offset + 1)
      pure (some (.NoteOff channel_number (lower_seven_bits k) (lower_seven_bits v),
                  data_offset + 2))
  | 0x90 => do
      let k ← byteAt buf data_offset
      let v ← byteAt buf (data_offset + 1)
      pure (some (.NoteOn channel_number (lower_seven_bits k) (lower_seven_bits v),
                  data_offset + 2))
  | 0xA0 => do
      let k ← byteAt buf data_offset
      let v ← byteAt buf (data_offset + 1)
      pure (some (.Aftertouch channel_number (lower_seven_bits k) (lower_seven_bits v),
                  data_offset + 2))
  | 0xB0 => do
      let c ← byteAt buf data_offset
      let v ← byteAt buf (data_offset + 1)
      pure (some (.ControlChange channel_number (lower_seven_bits c) (lower_seven_bits v),
                  data_offset + 2))
  | 0xC0 => do
      let p ← byteAt buf data_offset
      pure (some (.ProgramChange channel_number (lower_seven_bits p), data_offset + 1))
  | 0xD0 => do
      let v ← byteAt buf data_offset
      pure (some (.ChannelPressure channel_number (lower_seven_bits v), data_offset + 1))
  | 0xE0 => do
      let l ← byteAt buf data_offset
      let m ← byteAt buf (data_offset + 1)
      pure (some (.PitchWheel channel_number (lower_seven_bits l) (lower_seven_bits m),
                  data_offset + 2))
  | 0xF0 =>
      match channel_number with
      | 0x00 =>
          -- System exclusive commands are unsupported: the body length is not
          -- determinable, so this is an explicit decode failure.
          pure none
      | 0x01 => do
          let mt ← byteAt buf data_offset
          let v ← byteAt buf (data_offset + 1)
          pure (some (.MidiTimeCode (lower_seven_bits mt) (lower_seven_bits v),
                      data_offset + 2))
      | 0x02 => do
          let l ← byteAt buf data_offset
          let m ← byteAt buf (data_offset + 1)
          pure (some (.SongPositionPointer (lower_seven_bits l) (lower_seven_bits m),
                      data_offset + 2))
      | 0x03 => do
          let s ← byteAt buf data_offset
          pure (some (.SongSelect (lower_seven_bits s), data_offset + 1))
      | 0x06 => pure (some (.TuneRequest, data_offset))
      | 0x08 => pure (some (.MidiClock, data_offset))
      | 0x0A => pure (some (.MidiStart, data_offset))
      | 0x0B => pure (some (.MidiContinue, data_offset))
      | 0x0C => pure (some (.MidiStop, data_offset))
      | 0x0E => pure (some (.ActiveSense, data_offset))
      | 0x0F => pure (some (.Reset, data_offset))
      | _ => pure none
  | _ =>
      pure (some (.InvalidStatus, data_offset))

/-- fn parse_event: a delta time followed by a message; on success the new
context records the offset after the message and get_status_byte of it. -/
def parse_event (buf : List Nat) (cont : ContinueTrackRead) :
    Except Unit (Option (MidiEvent × ContinueTrackRead)) := do
  let (ticks, new_offset) ← parse_ticks buf cont.offset
  match ← parse_message buf new_offset cont.last_status with
  | none => pure none
  | some (message, new_offset2) =>
      pure (some ({ delta_time := ticks, message := message },
                  { offset := new_offset2, last_status := get_status_byte message }))

-- Basic facts about the Except embedding, used throughout.

theorem byteAt_eq_ok {buf : List Nat} {i b : Nat} (h : buf.get? i = some b) :
    byteAt buf i = .ok b := by
  unfold byteAt
  rw [h]

theorem ok_bind {α β : Type} (a : α) (f : α → Except Unit β) :
    (Except.ok a >>= f) = f a := rfl

theorem error_bind {α β : Type} (f : α → Except Unit β) :
    ((Except.error () : Except Unit α) >>= f) = .error () := rfl

theorem pure_eq_ok {α : Type} (a : α) : (pure a : Except Unit α) = .ok a := rfl

theorem except_bind_ok {α β : Type} {x : Except Unit α} {f : α → Except Unit β} {b : β} :
    (x >>= f = Except.ok b) ↔ ∃ a, x = Except.ok a ∧ f a = Except.ok b := by
  cases x <;> simp [Bind.bind, Except.bind]

-- The offset returned by each successful decode step never moves backwards;
-- the tick decoder consumes at least one byte.  This is what makes the track
-- event loop terminate.

theorem parse_ticks_loop_lt (buf : List Nat) (offset : Nat) :
    ∀ (n : Nat) (tb : List Nat) (t_off t o2 : Nat), 4 - t_off = n →
      parse_ticks_loop buf offset tb t_off = .ok (t, o2) → offset + t_off < o2 := by
  intro n
  induction n with
  | zero =>
    intro tb t_off t o2 hn h
    unfold parse_ticks_loop at h
    rw [dif_neg (by omega)] at h
    exact absurd h (by simp)
  | succ k ih =>
    intro tb t_off t o2 hn h
    unfold parse_ticks_loop at h
    rw [dif_pos (by omega : t_off < 4)] at h
    cases hb : byteAt buf (offset + t_off) with
    | error e => rw [hb, error_bind] at h; exact absurd h (by simp)
    | ok c =>
      rw [hb, ok_bind] at h
      simp only at h
      by_cases hm : msb_is_one c
      · rw [if_pos hm] at h
        have := ih _ (t_off + 1) t o2 (by omega) h
        omega
      · rw [if_neg hm] at h
        rw [pure_eq_ok] at h
        cases h
        omega

theorem parse_ticks_lt {buf : List Nat} {offset t o2 : Nat}
    (h : parse_ticks buf offset = .ok (t, o2)) : offset < o2 := by
  have := parse_ticks_loop_lt buf offset 4 [0, 0, 0, 0] 0 t o2 rfl h
  omega

theorem parse_message_le {buf : List Nat} {off ls : Nat} {m : MidiMessage} {o2 : Nat}
    (hp : parse_message buf off ls = .ok (some (m, o2))) : off ≤ o2 := by
  unfold parse_message at hp
  cases hb : byteAt buf off with
  | error e => rw [hb, error_bind] at hp; exact absurd hp (by simp)
  | ok b =>
    rw [hb, ok_bind] at hp
    simp only at hp
    set doff := if is_invalid_status_byte b = true then off else off + 1 with hdoff
    have hdle : off ≤ doff := by rw [hdoff]; split <;> omega
    split at hp <;> try split at hp
    all_goals
      simp only [except_bind_ok, pure_eq_ok, Except.ok.injEq, Option.some.injEq,
        Prod.mk.injEq, reduceCtorEq] at hp
    all_goals
      first
        | exact hp.elim
        | (obtain ⟨a1, h1, a2, h2, hm2, ho2⟩ := hp; omega)
        | (obtain ⟨a1, h1, hm2, ho2⟩ := hp; omega)
        | (obtain ⟨hm2, ho2⟩ := hp; omega)

theorem parse_event_offset_lt {buf : List Nat} {cont : ContinueTrackRead}
    {ev : MidiEvent} {cont2 : ContinueTrackRead}
    (h : parse_event buf cont = .ok (some (ev, cont2))) : cont.offset < cont2.offset := by
  unfold parse_event at h
  cases ht : parse_ticks buf cont.offset with
  | error e => rw [ht, error_bind] at h; exact absurd h (by simp)
  | ok p =>
    obtain ⟨t, noff⟩ := p
    rw [ht, ok_bind] at h
    simp only at h
    cases hm : parse_message buf noff cont.last_status with
    | error e => rw [hm, error_bind] at h; exact absurd h (by simp)
    | ok r =>
      rw [hm, ok_bind] at h
      match r, hm with
      | none, hm => rw [pure_eq_ok] at h; exact absurd h (by simp)
      | some (msg, o2), hm =>
        simp only [pure_eq_ok, Except.ok.injEq, Option.some.injEq, Prod.mk.injEq] at h
        have h1 := parse_ticks_lt ht
        have h2 := parse_message_le hm
        have : cont2.offset = o2 := by rw [← h.2]
        omega

/-- The event loop of fn parse_track: while the context offset is below the
end of the declared payload, parse one event; a decode failure aborts the
whole track (the partial event list is discarded), a panic propagates. -/
def trackEvents (buf : List Nat) (endOff : Nat) (cont : ContinueTrackRead) :
    Except Unit (Option (List MidiEvent)) :=
  if h : cont.offset < endOff then
    match he : parse_event buf cont with
    | .error _ => .error ()
    | .ok none => .ok none
    | .ok (some (ev, cont2)) =>
      match trackEvents buf endOff cont2 with
      | .error _ => .error ()
      | .ok none => .ok none
      | .ok (some evs) => .ok (some (ev :: evs))
  else
    .ok (some [])
termination_by endOff - cont.offset
decreasing_by
  have := parse_event_offset_lt he
  omega

/-- fn parse_track: parses an individual track beginning at the specified
offset.  Note that the source checks the 4 byte MTrk magic at buffer indices
0 to 3 (not at the offset), with short circuit reads, while the declared size
is read at offset + 4.  Events start at offset + 8 with last_status 0.  Byte
values: M = 77, T = 84, r = 114, k = 107. -/
def parse_track (buf : List Nat) (offset : Nat) : Except Unit (Option MidiTrack) := do
  let err ←
    (do
      let b0 ← byteAt buf 0
      if b0 ≠ 77 then pure true else do
        let b1 ← byteAt buf 1
        if b1 ≠ 84 then pure true else do
          let b2 ← byteAt buf 2
          if b2 ≠ 114 then pure true else do
            let b3 ← byteAt buf 3
            pure (decide (b3 ≠ 107)) : Except Unit Bool)
  if err then
    pure none
  else do
    let track_size ← get_track_size buf offset
    let event_offset := offset + 8
    match ← trackEvents buf (event_offset + track_size)
            { offset := event_offset, last_status := 0x00 } with
    | none => pure none
    | some midi_events => pure (some { track_length := track_size, events := midi_events })

/-- The loop of fn parse_all_tracks, instrumented: the first component lists
the offsets at which parse_track was invoked, the second is the Rust result.
On success the offset advances by the declared track length plus the 8 byte
chunk header; on a decode failure the error flag is set and the loop goes on
at the same offset; a panic aborts the remaining iterations. -/
def allTracksGo (buf : List Nat) :
    Nat → Nat → Bool → List Nat × Except Unit (Option (List MidiTrack))
  | 0, _offset, error => ([], if error then .ok none else .ok (some []))
  | n + 1, offset, error =>
    match parse_track buf offset with
    | .error _ => ([offset], .error ())
    | .ok none =>
      let r := allTracksGo buf n offset true
      (offset :: r.1, r.2)
    | .ok (some track) =>
      let r := allTracksGo buf n (offset + track.track_length + 8) error
      (offset :: r.1,
        match r.2 with
        | .error _ => .error ()
        | .ok none => .ok none
        | .ok (some ts) => .ok (some (track :: ts)))

/-- fn parse_all_tracks: starting from offset 14 (the constant header size),
run parse_track once per declared track. -/
def parse_all_tracks (header : MidiHeader) (buf : List Nat) :
    Except Unit (Option (List MidiTrack)) :=
  (allTracksGo buf header.num_tracks 14 false).2

/-- The offsets at which parse_all_tracks invokes parse_track, taken from the
same instrumented loop. -/
def track_attempts (header : MidiHeader) (buf : List Nat) : List Nat :=
  (allTracksGo buf header.num_tracks 14 false).1

/-- The pure core of fn parse_file: after the file is read into a buffer,
parse_file runs exactly this composition of parse_header (once) and
parse_all_tracks. -/
def parse_file_buf (buf : List Nat) : Except Unit (Option MidiFile) := do
  match ← parse_header buf with
  | some header =>
    match ← parse_all_tracks header buf with
    | some tracks => pure (some { header := header, tracks := tracks })
    | none => pure none
  | none => pure none

-- Equality of Except values is decidable componentwise; used to evaluate the
-- embedded decoders on concrete byte buffers.

instance {ε α : Type} [DecidableEq ε] [DecidableEq α] : DecidableEq (Except ε α) := fun x y =>
  match x, y with
  | .error a, .error b => decidable_of_iff (a = b) (by simp)
  | .ok a, .ok b => decidable_of_iff (a = b) (by simp)
  | .error _, .ok _ => isFalse (by simp)
  | .ok _, .error _ => isFalse (by simp)

-- Small facts about bytes and nibbles, each checked over the byte range.

theorem and240_enum : ∀ s : Nat, s < 256 → 128 ≤ s →
    s &&& 240 = 128 ∨ s &&& 240 = 144 ∨ s &&& 240 = 160 ∨ s &&& 240 = 176 ∨
      s &&& 240 = 192 ∨ s &&& 240 = 208 ∨ s &&& 240 = 224 ∨ s &&& 240 = 240 := by decide

theorem nibble_decomp : ∀ s : Nat, s < 256 → (s &&& 240) ||| (s &&& 15) = s := by decide

theorem and15_enum : ∀ s : Nat, s < 256 →
    s &&& 15 = 0 ∨ s &&& 15 = 1 ∨ s &&& 15 = 2 ∨ s &&& 15 = 3 ∨ s &&& 15 = 4 ∨
      s &&& 15 = 5 ∨ s &&& 15 = 6 ∨ s &&& 15 = 7 ∨ s &&& 15 = 8 ∨ s &&& 15 = 9 ∨
      s &&& 15 = 10 ∨ s &&& 15 = 11 ∨ s &&& 15 = 12 ∨ s &&& 15 = 13 ∨ s &&& 15 = 14 ∨
      s &&& 15 = 15 := by decide

theorem lower7_id : ∀ d : Nat, d < 128 → lower_seven_bits d = d := by decide

theorem noteon_status_nibbles : ∀ c : Nat, c < 16 →
    (144 ||| c) &&& 240 = 144 ∧ (144 ||| c) &&& 15 = c := by decide

-- Evaluation lemmas for the tick decoder on one and two byte encodings.

theorem parse_ticks_one_byte {buf : List Nat} {off c : Nat}
    (h : buf.get? off = some c) (hm : msb_is_one c = false) :
    parse_ticks buf off = .ok (lower_seven_bits c, off + 1) := by
  unfold parse_ticks parse_ticks_loop
  rw [dif_pos (by omega : (0 : Nat) < 4)]
  simp only [Nat.add_zero, byteAt_eq_ok h, ok_bind, hm, Bool.false_eq_true, if_false]
  unfold ticks_combine ticks_combine
  simp [lower_seven_bits, pure_eq_ok]

theorem parse_ticks_two_bytes {buf : List Nat} {off c0 c1 : Nat}
    (h0 : buf.get? off = some c0) (hm0 : msb_is_one c0 = true)
    (h1 : buf.get? (off + 1) = some c1) (hm1 : msb_is_one c1 = false) :
    parse_ticks buf off =
      .ok ((lower_seven_bits c0 <<< 8) >>> 1 ||| lower_seven_bits c1, off + 2) := by
  unfold parse_ticks parse_ticks_loop
  rw [dif_pos (by omega : (0 : Nat) < 4)]
  simp only [Nat.add_zero, byteAt_eq_ok h0, ok_bind, hm0, if_true]
  unfold parse_ticks_loop
  rw [dif_pos (by omega : (1 : Nat) < 4)]
  simp only [byteAt_eq_ok h1, ok_bind, hm1, Bool.false_eq_true, if_false]
  unfold ticks_combine ticks_combine ticks_combine
  simp [lower_seven_bits, pure_eq_ok]

/-- C6.  The VLQ decoder is bit exact on the two concrete cases of the spec:
a byte 0x50 at the offset decodes to 80 consuming exactly one byte, and bytes
0x83, 0x60 at the offset decode to 480 consuming exactly two bytes, in any
surrounding buffer. -/
theorem C6_vlq_concrete_cases :
    (∀ (buf : List Nat) (off : Nat), buf.get? off = some 0x50 →
      parse_ticks buf off = .ok (80, off + 1)) ∧
    (∀ (buf : List Nat) (off : Nat), buf.get? off = some 0x83 →
      buf.get? (off + 1) = some 0x60 →
      parse_ticks buf off = .ok (480, off + 2)) := by
  constructor
  · intro buf off h
    have := parse_ticks_one_byte h (by decide)
    simpa using this
  · intro buf off h0 h1
    have := parse_ticks_two_bytes h0 (by decide) h1 (by decide)
    simpa using this

theorem C6_witness :
    parse_ticks [0x50] 0 = .ok (80, 1) ∧ parse_ticks [0x83, 0x60] 0 = .ok (480, 2) := by
  constructor
  · have := C6_vlq_concrete_cases.1 [0x50] 0 (by decide)
    simpa using this
  · have := C6_vlq_concrete_cases.2 [0x83, 0x60] 0 (by decide) (by decide)
    simpa using this

/-- C3, counterexample to the claim as stated.  On four consecutive bytes with
the high bit set the VLQ decoder does not return a decode failure result: its
Rust return type (u32, u32) has no failure value at all, and the run aborts
with a failed assert, which is the crash outcome Except.error () of this
embedding.  This refutes "returns an explicit decode-failure result — it does
not throw, crash". -/
theorem C3_counterexample_ticks_crash :
    parse_ticks [128, 128, 128, 128] 0 = .error () := by
  simp [parse_ticks, parse_ticks_loop, byteAt, msb_is_one, lower_seven_bits,
    ok_bind, error_bind, pure_eq_ok]

/-- C3, amended.  For every buffer and offset at which four consecutive bytes
all have the high bit set, parse_ticks aborts via the failed assertion
(modeled as Except.error ()), and it does so before reading any 5th byte: the
result is fixed by the four bytes alone, whatever follows them. -/
theorem C3_ticks_assert_on_four_continuations
    {buf : List Nat} {off b0 b1 b2 b3 : Nat}
    (h0 : buf.get? off = some b0) (h1 : buf.get? (off + 1) = some b1)
    (h2 : buf.get? (off + 2) = some b2) (h3 : buf.get? (off + 3) = some b3)
    (m0 : 127 < b0) (m1 : 127 < b1) (m2 : 127 < b2) (m3 : 127 < b3) :
    parse_ticks buf off = .error () := by
  have e0 : msb_is_one b0 = true := by simp [msb_is_one]; omega
  have e1 : msb_is_one b1 = true := by simp [msb_is_one]; omega
  have e2 : msb_is_one b2 = true := by simp [msb_is_one]; omega
  have e3 : msb_is_one b3 = true := by simp [msb_is_one]; omega
  unfold parse_ticks parse_ticks_loop
  rw [dif_pos (by omega : (0 : Nat) < 4)]
  simp only [Nat.add_zero, byteAt_eq_ok h0, ok_bind, e0, if_true]
  unfold parse_ticks_loop
  rw [dif_pos (by omega : (1 : Nat) < 4)]
  simp only [byteAt_eq_ok h1, ok_bind, e1, if_true]
  unfold parse_ticks_loop
  rw [dif_pos (by omega : (2 : Nat) < 4)]
  simp only [byteAt_eq_ok h2, ok_bind, e2, if_true]
  unfold parse_ticks_loop
  rw [dif_pos (by omega : (3 : Nat) < 4)]
  simp only [byteAt_eq_ok h3, ok_bind, e3, if_true]
  unfold parse_ticks_loop
  rw [dif_neg (by omega)]

theorem C3_witness : parse_ticks [128, 128, 128, 128, 0] 0 = .error () :=
  @C3_ticks_assert_on_four_continuations [128, 128, 128, 128, 0] 0 128 128 128 128
    (by decide) (by decide) (by decide) (by decide)
    (by decide) (by decide) (by decide) (by decide)

/-- C2.  Counter-demonstration on the code: a track context at its initial
state (last_status = 0, as parse_track seeds it) meeting an event whose
message byte is a bare data byte (0x26 < 0x80, i.e. the first event omits its
status byte) decodes successfully to the InvalidStatus message, and the
running status context recorded for the next message is 0xFD — exactly
get_status_byte of InvalidStatus, the sentinel the claim says must never be
carried.  The delta time byte here is 0x00. -/
theorem C2_invalid_status_sentinel_carried :
    parse_event [0x00, 0x26] { offset := 0, last_status := 0 } =
      .ok (some ({ delta_time := 0, message := .InvalidStatus },
                 { offset := 1, last_status := 0xFD })) ∧
    get_status_byte .InvalidStatus = 0xFD := by
  constructor
  · simp [parse_event, parse_ticks, parse_ticks_loop, ticks_combine, byteAt, msb_is_one,
      lower_seven_bits, parse_message, is_invalid_status_byte, get_status_byte,
      ok_bind, error_bind, pure_eq_ok]
  · rfl

/-- C8.  Whenever the effective status byte — the fresh byte at the offset if
it is a valid status byte, otherwise the carried last_status — equals 0xF0
(SystemExclusive), the message decoder returns the explicit decode failure
Except.ok none, for every buffer, offset and running status context. -/
theorem C8_sysex_always_fails
    {buf : List Nat} {off ls b : Nat}
    (hb : buf.get? off = some b)
    (heff : (if is_invalid_status_byte b then ls else b) = 0xF0) :
    parse_message buf off ls = .ok none := by
  unfold parse_message
  rw [byteAt_eq_ok hb, ok_bind]
  simp only [heff]
  norm_num [pure_eq_ok]

theorem C8_witness : parse_message [0xF0] 0 0 = .ok none :=
  @C8_sysex_always_fails [0xF0] 0 0 0xF0 (by decide) (by decide)

/-- C10.  The header decoder depends only on the first 14 bytes: two buffers
of length at least 14 that agree on indices 0 through 13 give identical
parse_header results. -/
theorem C10_header_depends_on_first_14
    {buf1 buf2 : List Nat}
    (hl1 : 14 ≤ buf1.length) (hl2 : 14 ≤ buf2.length)
    (hagree : ∀ i, i < 14 → buf1.get? i = buf2.get? i) :
    parse_header buf1 = parse_header buf2 := by
  have hB : ∀ i, i < 14 → byteAt buf1 i = byteAt buf2 i := by
    intro i hi
    unfold byteAt
    rw [hagree i hi]
  unfold parse_header u16_from_u8_at
  rw [hB 0 (by norm_num), hB 1 (by norm_num), hB 2 (by norm_num), hB 3 (by norm_num),
    hB 4 (by norm_num), hB 5 (by norm_num), hB 6 (by norm_num), hB 7 (by norm_num),
    hB 8 (by norm_num), hB 9 (by norm_num), hB 10 (by norm_num), hB 11 (by norm_num),
    hB 12 (by norm_num), hB 13 (by norm_num)]

theorem C10_witness :
    parse_header [77, 84, 104, 100, 0, 0, 0, 6, 0, 1, 0, 5, 0, 160, 7] =
      parse_header [77, 84, 104, 100, 0, 0, 0, 6, 0, 1, 0, 5, 0, 160, 8, 9] :=
  C10_header_depends_on_first_14 (by decide) (by decide) (by decide)

/-- C9.  Round trip of the status dispatch: whenever the byte s at the offset
is consumed as a fresh status byte (it is not classified invalid) and the
message decoder succeeds with message m, the inverse mapping get_status_byte
recovers exactly s. -/
theorem C9_status_roundtrip
    {buf : List Nat} {off ls s : Nat} {m : MidiMessage} {o2 : Nat}
    (hs : buf.get? off = some s) (h256 : s < 256)
    (hval : is_invalid_status_byte s = false)
    (hp : parse_message buf off ls = .ok (some (m, o2))) :
    get_status_byte m = s := by
  have h128 : 128 ≤ s := by
    by_contra hlt
    have : is_invalid_status_byte s = true := by simp [is_invalid_status_byte]; omega
    rw [this] at hval; exact Bool.noConfusion hval
  unfold parse_message at hp
  rw [byteAt_eq_ok hs, ok_bind] at hp
  simp only [hval, Bool.false_eq_true, if_false] at hp
  rcases and240_enum s h256 h128 with hc | hc | hc | hc | hc | hc | hc | hc <;> rw [hc] at hp
  · simp only [except_bind_ok, pure_eq_ok, Except.ok.injEq, Option.some.injEq,
      Prod.mk.injEq] at hp
    obtain ⟨k, -, v, -, hm, -⟩ := hp
    subst hm
    show 128 ||| (s &&& 15) = s
    rw [← hc]; exact nibble_decomp s h256
  · simp only [except_bind_ok, pure_eq_ok, Except.ok.injEq, Option.some.injEq,
      Prod.mk.injEq] at hp
    obtain ⟨k, -, v, -, hm, -⟩ := hp
    subst hm
    show 144 ||| (s &&& 15) = s
    rw [← hc]; exact nibble_decomp s h256
  · simp only [except_bind_ok, pure_eq_ok, Except.ok.injEq, Option.some.injEq,
      Prod.mk.injEq] at hp
    obtain ⟨k, -, v, -, hm, -⟩ := hp
    subst hm
    show 160 ||| (s &&& 15) = s
    rw [← hc]; exact nibble_decomp s h256
  · simp only [except_bind_ok, pure_eq_ok, Except.ok.injEq, Option.some.injEq,
      Prod.mk.injEq] at hp
    obtain ⟨k, -, v, -, hm, -⟩ := hp
    subst hm
    show 176 ||| (s &&& 15) = s
    rw [← hc]; exact nibble_decomp s h256
  · simp only [except_bind_ok, pure_eq_ok, Except.ok.injEq, Option.some.injEq,
      Prod.mk.injEq] at hp
    obtain ⟨p, -, hm, -⟩ := hp
    subst hm
    show 192 ||| (s &&& 15) = s
    rw [← hc]; exact nibble_decomp s h256
  · simp only [except_bind_ok, pure_eq_ok, Except.ok.injEq, Option.some.injEq,
      Prod.mk.injEq] at hp
    obtain ⟨p, -, hm, -⟩ := hp
    subst hm
    show 208 ||| (s &&& 15) = s
    rw [← hc]; exact nibble_decomp s h256
  · simp only [except_bind_ok, pure_eq_ok, Except.ok.injEq, Option.some.injEq,
      Prod.mk.injEq] at hp
    obtain ⟨k, -, v, -, hm, -⟩ := hp
    subst hm
    show 224 ||| (s &&& 15) = s
    rw [← hc]; exact nibble_decomp s h256
  · -- 0xF0 family: dispatch further on the low nibble
    have hdec := nibble_decomp s h256
    rw [hc] at hdec
    rcases and15_enum s h256 with h15 | h15 | h15 | h15 | h15 | h15 | h15 | h15 | h15 |
      h15 | h15 | h15 | h15 | h15 | h15 | h15 <;> rw [h15] at hp <;> rw [h15] at hdec
    · rw [pure_eq_ok] at hp; exact absurd hp (by simp)
    · simp only [except_bind_ok, pure_eq_ok, Except.ok.injEq, Option.some.injEq,
        Prod.mk.injEq] at hp
      obtain ⟨k, -, v, -, hm, -⟩ := hp
      subst hm
      show 241 = s
      rw [← hdec]; decide
    · simp only [except_bind_ok, pure_eq_ok, Except.ok.injEq, Option.some.injEq,
        Prod.mk.injEq] at hp
      obtain ⟨k, -, v, -, hm, -⟩ := hp
      subst hm
      show 242 = s
      rw [← hdec]; decide
    · simp only [except_bind_ok, pure_eq_ok, Except.ok.injEq, Option.some.injEq,
        Prod.mk.injEq] at hp
      obtain ⟨k, -, hm, -⟩ := hp
      subst hm
      show 243 = s
      rw [← hdec]; decide
    · rw [pure_eq_ok] at hp; exact absurd hp (by simp)
    · rw [pure_eq_ok] at hp; exact absurd hp (by simp)
    · simp only [pure_eq_ok, Except.ok.injEq, Option.some.injEq, Prod.mk.injEq] at hp
      obtain ⟨hm, -⟩ := hp
      subst hm
      show 246 = s
      rw [← hdec]; decide
    · rw [pure_eq_ok] at hp; exact absurd hp (by simp)
    · simp only [pure_eq_ok, Except.ok.injEq, Option.some.injEq, Prod.mk.injEq] at hp
      obtain ⟨hm, -⟩ := hp
      subst hm
      show 248 = s
      rw [← hdec]; decide
    · rw [pure_eq_ok] at hp; exact absurd hp (by simp)
    · simp only [pure_eq_ok, Except.ok.injEq, Option.some.injEq, Prod.mk.injEq] at hp
      obtain ⟨hm, -⟩ := hp
      subst hm
      show 250 = s
      rw [← hdec]; decide
    · simp only [pure_eq_ok, Except.ok.injEq, Option.some.injEq, Prod.mk.injEq] at hp
      obtain ⟨hm, -⟩ := hp
      subst hm
      show 251 = s
      rw [← hdec]; decide
    · simp only [pure_eq_ok, Except.ok.injEq, Option.some.injEq, Prod.mk.injEq] at hp
      obtain ⟨hm, -⟩ := hp
      subst hm
      show 252 = s
      rw [← hdec]; decide
    · rw [pure_eq_ok] at hp; exact absurd hp (by simp)
    · simp only [pure_eq_ok, Except.ok.injEq, Option.some.injEq, Prod.mk.injEq] at hp
      obtain ⟨hm, -⟩ := hp
      subst hm
      show 254 = s
      rw [← hdec]; decide
    · simp only [pure_eq_ok, Except.ok.injEq, Option.some.injEq, Prod.mk.injEq] at hp
      obtain ⟨hm, -⟩ := hp
      subst hm
      show 255 = s
      rw [← hdec]; decide

theorem C9_witness : get_status_byte (.NoteOn 1 5 7) = 0x91 :=
  @C9_status_roundtrip [0x91, 5, 7] 0 0 0x91 (.NoteOn 1 5 7) 3
    (by decide) (by decide) (by decide) (by decide)

-- Inversion helpers for the message and event decoders.

theorem parse_message_NoteOn_channel {buf : List Nat} {off ls c k v : Nat} {o2 : Nat}
    (hp : parse_message buf off ls = .ok (some (.NoteOn c k v, o2))) : c < 16 := by
  unfold parse_message at hp
  cases hb : byteAt buf off with
  | error e => rw [hb, error_bind] at hp; exact absurd hp (by simp)
  | ok b =>
    rw [hb, ok_bind] at hp
    simp only at hp
    set doff := if is_invalid_status_byte b = true then off else off + 1 with hdoff
    split at hp <;> try split at hp
    all_goals
      simp only [except_bind_ok, pure_eq_ok, Except.ok.injEq, Option.some.injEq,
        Prod.mk.injEq, MidiMessage.NoteOn.injEq, reduceCtorEq, and_false, false_and,
        and_true, true_and, exists_false] at hp
    all_goals
      first
        | exact hp.elim
        | (obtain ⟨a1, -, a2, -, ⟨hc, -, -⟩, -⟩ := hp
           subst hc
           exact Nat.lt_succ_of_le Nat.and_le_right)

theorem parse_event_ok_inv {buf : List Nat} {cont : ContinueTrackRead}
    {ev : MidiEvent} {cont2 : ContinueTrackRead}
    (h : parse_event buf cont = .ok (some (ev, cont2))) :
    ∃ t noff o2, parse_ticks buf cont.offset = .ok (t, noff) ∧
      parse_message buf noff cont.last_status = .ok (some (ev.message, o2)) ∧
      ev.delta_time = t ∧ cont2.offset = o2 ∧
      cont2.last_status = get_status_byte ev.message := by
  unfold parse_event at h
  cases ht : parse_ticks buf cont.offset with
  | error e => rw [ht, error_bind] at h; exact absurd h (by simp)
  | ok p =>
    obtain ⟨t, noff⟩ := p
    rw [ht, ok_bind] at h
    simp only at h
    cases hm : parse_message buf noff cont.last_status with
    | error e => rw [hm, error_bind] at h; exact absurd h (by simp)
    | ok r =>
      rw [hm, ok_bind] at h
      match r, hm with
      | none, hm => rw [pure_eq_ok] at h; exact absurd h (by simp)
      | some (msg, o2), hm =>
        simp only [pure_eq_ok, Except.ok.injEq, Option.some.injEq, Prod.mk.injEq] at h
        obtain ⟨hev, hcont⟩ := h
        refine ⟨t, noff, o2, rfl, ?_, ?_, ?_, ?_⟩
        · rw [← hev]; exact hm
        · rw [← hev]
        · rw [← hcont]
        · rw [← hcont, ← hev]

/-- C7.  Running status: after any event whose decoded message was a NoteOn
with channel c, the carried context holds status 0x90 OR c; when the next
message position holds a bare data byte (below 0x80), the decoder reuses that
status, decodes another NoteOn on the same channel c, and does not consume
the bare byte as a status byte: the two data bytes are the bytes at the
message offset itself and the one after, and decoding ends right after them. -/
theorem C7_running_status_noteon
    {buf : List Nat} {cont cont2 : ContinueTrackRead} {ev : MidiEvent} {c k v : Nat}
    (hev : parse_event buf cont = .ok (some (ev, cont2)))
    (hm : ev.message = .NoteOn c k v)
    {t off2 : Nat} (ht : parse_ticks buf cont2.offset = .ok (t, off2))
    {d1 d2 : Nat} (h1 : buf.get? off2 = some d1) (hd1 : d1 < 0x80)
    (h2 : buf.get? (off2 + 1) = some d2) (hd2 : d2 < 0x80) :
    parse_event buf cont2 =
      .ok (some ({ delta_time := t, message := .NoteOn c d1 d2 },
                 { offset := off2 + 2, last_status := 0x90 ||| c })) := by
  obtain ⟨t0, noff0, o20, ht0, hpm0, -, -, hlast⟩ := parse_event_ok_inv hev
  rw [hm] at hpm0 hlast
  have hc : c < 16 := parse_message_NoteOn_channel hpm0
  have hnib := noteon_status_nibbles c hc
  have hinv1 : is_invalid_status_byte d1 = true := by
    simp [is_invalid_status_byte]
    omega
  have hmsg : parse_message buf off2 cont2.last_status =
      .ok (some (.NoteOn c d1 d2, off2 + 2)) := by
    rw [hlast]
    show parse_message buf off2 (144 ||| c) = _
    unfold parse_message
    rw [byteAt_eq_ok h1, ok_bind]
    simp only [hinv1, if_true]
    rw [hnib.1, hnib.2]
    simp only [byteAt_eq_ok h1, byteAt_eq_ok h2, ok_bind, pure_eq_ok,
      lower7_id d1 (by omega), lower7_id d2 (by omega)]
  unfold parse_event
  rw [ht, ok_bind]
  simp only
  rw [hmsg, ok_bind]
  rfl

theorem C7_witness :
    parse_event [0x50, 0x92, 0x05, 0x04, 0x83, 0x60, 0x26, 0x00]
        { offset := 4, last_status := 0x92 } =
      .ok (some ({ delta_time := 480, message := .NoteOn 2 38 0 },
                 { offset := 8, last_status := 146 })) := by
  have hev : parse_event [0x50, 0x92, 0x05, 0x04, 0x83, 0x60, 0x26, 0x00]
      { offset := 0, last_status := 0 } =
      .ok (some ({ delta_time := 80, message := .NoteOn 2 5 4 },
                 { offset := 4, last_status := 0x92 })) := by
    simp [parse_event, parse_ticks, parse_ticks_loop, ticks_combine, byteAt, msb_is_one,
      lower_seven_bits, parse_message, is_invalid_status_byte, get_status_byte,
      ok_bind, error_bind, pure_eq_ok]
    try decide
  have ht : parse_ticks [0x50, 0x92, 0x05, 0x04, 0x83, 0x60, 0x26, 0x00] 4 =
      .ok (480, 6) := by
    simp [parse_ticks, parse_ticks_loop, ticks_combine, byteAt, msb_is_one,
      lower_seven_bits, ok_bind, error_bind, pure_eq_ok]
    try decide
  have h1 : [0x50, 0x92, 0x05, 0x04, 0x83, 0x60, 0x26, 0x00].get? 6 = some 38 := by decide
  have h2 : [0x50, 0x92, 0x05, 0x04, 0x83, 0x60, 0x26, 0x00].get? (6 + 1) = some 0 := by decide
  have := C7_running_status_noteon hev rfl ht h1 (by decide) h2 (by decide)
  simpa using this

/-- C1.  Counter-demonstration on the code: the Track Decoder checks the MTrk
magic at buffer indices 0 to 3, not at the chunk starting offset.  First
buffer: a well formed file (MThd header, then a valid MTrk chunk at offset
14) — the bytes at offset 14 are exactly M, T, r, k, yet parse_track at 14
fails, because index 2 of the buffer holds 104 (h of MThd).  Second buffer:
the bytes at offset 14 are 9, 9, 9, 9 (no MTrk magic at the offset), yet
parse_track at 14 succeeds, because the buffer begins with MTrk; the declared
payload length is still read at offset + 4 as the claim says. -/
theorem C1_track_magic_checked_at_buffer_start :
    (([77, 84, 104, 100, 0, 0, 0, 6, 0, 1, 0, 1, 0, 160,
       77, 84, 114, 107, 0, 0, 0, 0] : List Nat).get? 14 = some 77 ∧
     ([77, 84, 104, 100, 0, 0, 0, 6, 0, 1, 0, 1, 0, 160,
       77, 84, 114, 107, 0, 0, 0, 0] : List Nat).get? 15 = some 84 ∧
     ([77, 84, 104, 100, 0, 0, 0, 6, 0, 1, 0, 1, 0, 160,
       77, 84, 114, 107, 0, 0, 0, 0] : List Nat).get? 16 = some 114 ∧
     ([77, 84, 104, 100, 0, 0, 0, 6, 0, 1, 0, 1, 0, 160,
       77, 84, 114, 107, 0, 0, 0, 0] : List Nat).get? 17 = some 107 ∧
     parse_track [77, 84, 104, 100, 0, 0, 0, 6, 0, 1, 0, 1, 0, 160,
       77, 84, 114, 107, 0, 0, 0, 0] 14 = .ok none) ∧
    (([77, 84, 114, 107, 0, 0, 0, 0, 0, 0, 0, 0, 0, 0,
       9, 9, 9, 9, 0, 0, 0, 0] : List Nat).get? 14 = some 9 ∧
     parse_track [77, 84, 114, 107, 0, 0, 0, 0, 0, 0, 0, 0, 0, 0,
       9, 9, 9, 9, 0, 0, 0, 0] 14 = .ok (some { track_length := 0, events := [] })) := by
  refine ⟨⟨by decide, by decide, by decide, by decide, ?_⟩, by decide, ?_⟩
  · simp [parse_track, get_track_size, u32_from_u8_at, byteAt,
      ok_bind, error_bind, pure_eq_ok]
  · have htev : trackEvents [77, 84, 114, 107, 0, 0, 0, 0, 0, 0, 0, 0, 0, 0,
        9, 9, 9, 9, 0, 0, 0, 0] 22 { offset := 22, last_status := 0 } = .ok (some []) := by
      rw [trackEvents]
      simp
    simp [parse_track, get_track_size, u32_from_u8_at, byteAt,
      ok_bind, error_bind, pure_eq_ok, htev]

-- Facts about the instrumented parse_all_tracks loop.

theorem allTracksGo_length {buf : List Nat} :
    ∀ (n off : Nat) (err : Bool) (res : Option (List MidiTrack)),
      (allTracksGo buf n off err).2 = .ok res → (allTracksGo buf n off err).1.length = n := by
  intro n
  induction n with
  | zero => intro off err res _; simp [allTracksGo]
  | succ m ih =>
    intro off err res h
    rw [allTracksGo] at h ⊢
    cases hpt : parse_track buf off with
    | error e => rw [hpt] at h; simp at h
    | ok o =>
      cases o with
      | none =>
        rw [hpt] at h
        simp only [List.length_cons] at h ⊢
        rw [ih off true res h]
      | some track =>
        rw [hpt] at h
        simp only [List.length_cons] at h ⊢
        cases hr : (allTracksGo buf m (off + track.track_length + 8) err).2 with
        | error e => simp [hr] at h
        | ok o2 =>
          cases o2 with
          | none => rw [ih _ err none hr]
          | some ts => rw [ih _ err (some ts) hr]

theorem allTracksGo_head {buf : List Nat} (n off : Nat) (err : Bool) :
    (allTracksGo buf (n + 1) off err).1.get? 0 = some off := by
  rw [allTracksGo]
  cases parse_track buf off with
  | error e => rfl
  | ok o =>
    cases o with
    | none => rfl
    | some track => rfl

theorem allTracksGo_succ {buf : List Nat} :
    ∀ (n off : Nat) (err : Bool) (k a a' : Nat) (t : MidiTrack),
      (allTracksGo buf n off err).1.get? k = some a →
      parse_track buf a = .ok (some t) →
      (allTracksGo buf n off err).1.get? (k + 1) = some a' →
      a' = a + t.track_length + 8 := by
  intro n
  induction n with
  | zero => intro off err k a a' t h1 _ _; simp [allTracksGo] at h1
  | succ m ih =>
    intro off err k a a' t h1 h2 h3
    rw [allTracksGo] at h1 h3
    cases hpt : parse_track buf off with
    | error e =>
      rw [hpt] at h1 h3
      cases k with
      | zero => simp at h3
      | succ j => simp at h1
    | ok o =>
      cases o with
      | none =>
        rw [hpt] at h1 h3
        cases k with
        | zero =>
          simp only [List.get?_cons_zero, Option.some.injEq] at h1
          subst h1
          rw [h2] at hpt
          exact absurd hpt (by simp)
        | succ j =>
          simp only [List.get?_cons_succ] at h1 h3
          exact ih off true j a a' t h1 h2 h3
      | some track =>
        rw [hpt] at h1 h3
        cases k with
        | zero =>
          simp only [List.get?_cons_zero, Option.some.injEq] at h1
          subst h1
          rw [h2] at hpt
          have htt : t = track := by
            simp only [Except.ok.injEq, Option.some.injEq] at hpt
            exact hpt
          subst htt
          simp only [List.get?_cons_succ] at h3
          cases m with
          | zero => simp [allTracksGo] at h3
          | succ m2 =>
            rw [allTracksGo_head] at h3
            simp only [Option.some.injEq] at h3
            omega
        | succ j =>
          simp only [List.get?_cons_succ] at h1 h3
          exact ih (off + track.track_length + 8) err j a a' t h1 h2 h3

/-- C4.  The File Decoder orchestration: whenever parse_all_tracks finishes
without a panic it has attempted exactly header.num_tracks track decodes; the
offset of attempt k+1 after a successful attempt k at offset a on a track t
is a + t.track_length + 8; a successful file decode is exactly one header
decode followed by parse_all_tracks of that header; and the first attempt is
at offset 14. -/
theorem C4_file_decoder_orchestration :
    (∀ (buf : List Nat) (header : MidiHeader) (res : Option (List MidiTrack)),
       parse_all_tracks header buf = .ok res →
       (track_attempts header buf).length = header.num_tracks) ∧
    (∀ (buf : List Nat) (header : MidiHeader) (k a a' : Nat) (t : MidiTrack),
       (track_attempts header buf).get? k = some a →
       parse_track buf a = .ok (some t) →
       (track_attempts header buf).get? (k + 1) = some a' →
       a' = a + t.track_length + 8) ∧
    (∀ (buf : List Nat) (mf : MidiFile),
       parse_file_buf buf = .ok (some mf) →
       parse_header buf = .ok (some mf.header) ∧
       parse_all_tracks mf.header buf = .ok (some mf.tracks)) ∧
    (∀ (buf : List Nat) (header : MidiHeader), header.num_tracks ≠ 0 →
       (track_attempts header buf).get? 0 = some 14) := by
  refine ⟨?_, ?_, ?_, ?_⟩
  · intro buf header res h
    exact allTracksGo_length header.num_tracks 14 false res h
  · intro buf header k a a' t h1 h2 h3
    exact allTracksGo_succ header.num_tracks 14 false k a a' t h1 h2 h3
  · intro buf mf h
    unfold parse_file_buf at h
    cases hh : parse_header buf with
    | error e => rw [hh, error_bind] at h; exact absurd h (by simp)
    | ok o =>
      rw [hh, ok_bind] at h
      match o, hh with
      | none, hh => rw [pure_eq_ok] at h; exact absurd h (by simp)
      | some hd, hh =>
        simp only at h
        cases hat : parse_all_tracks hd buf with
        | error e => rw [hat, error_bind] at h; exact absurd h (by simp)
        | ok o2 =>
          rw [hat, ok_bind] at h
          match o2, hat with
          | none, hat => simp only at h; rw [pure_eq_ok] at h; exact absurd h (by simp)
          | some ts, hat =>
            simp only at h
            rw [pure_eq_ok] at h
            simp only [Except.ok.injEq, Option.some.injEq] at h
            subst h
            exact ⟨rfl, hat⟩
  · intro buf header hne
    show (allTracksGo buf header.num_tracks 14 false).1.get? 0 = some 14
    cases hn : header.num_tracks with
    | zero => exact absurd hn hne
    | succ m => exact allTracksGo_head m 14 false

theorem C4_witness :
    (track_attempts ⟨.SingleTrack, 2, 160⟩ [0]).length = 2 ∧
    (22 : Nat) = 14 + 0 + 8 ∧
    (parse_header [77, 84, 104, 100, 0, 0, 0, 6, 0, 1, 0, 0, 0, 160] =
       .ok (some ⟨.SingleTrack, 0, 160⟩) ∧
     parse_all_tracks ⟨.SingleTrack, 0, 160⟩
       [77, 84, 104, 100, 0, 0, 0, 6, 0, 1, 0, 0, 0, 160] = .ok (some [])) ∧
    (track_attempts ⟨.SingleTrack, 2, 160⟩ [0]).get? 0 = some 14 := by
  have hptB : parse_track [77, 84, 114, 107, 0, 0, 0, 0, 0, 0, 0, 0, 0, 0,
      9, 9, 9, 9, 0, 0, 0, 0] 14 = .ok (some ⟨0, []⟩) := by
    have htev : trackEvents [77, 84, 114, 107, 0, 0, 0, 0, 0, 0, 0, 0, 0, 0,
        9, 9, 9, 9, 0, 0, 0, 0] 22 ⟨22, 0⟩ = .ok (some []) := by
      rw [trackEvents]
      simp
    simp [parse_track, get_track_size, u32_from_u8_at, byteAt,
      ok_bind, error_bind, pure_eq_ok, htev]
  have hta : track_attempts ⟨.SingleTrack, 2, 160⟩ [77, 84, 114, 107, 0, 0, 0, 0, 0, 0,
      0, 0, 0, 0, 9, 9, 9, 9, 0, 0, 0, 0] = [14, 22] := by
    show (allTracksGo _ 2 14 false).1 = [14, 22]
    rw [allTracksGo, hptB]
    have hptB22 : parse_track [77, 84, 114, 107, 0, 0, 0, 0, 0, 0, 0, 0, 0, 0,
        9, 9, 9, 9, 0, 0, 0, 0] 22 = .error () := by
      simp [parse_track, get_track_size, u32_from_u8_at, byteAt,
        ok_bind, error_bind, pure_eq_ok]
    simp only [allTracksGo, hptB22]
  refine ⟨C4_file_decoder_orchestration.1 [0] ⟨.SingleTrack, 2, 160⟩ none (by decide),
    ?_,
    C4_file_decoder_orchestration.2.2.1 [77, 84, 104, 100, 0, 0, 0, 6, 0, 1, 0, 0, 0, 160]
      ⟨⟨.SingleTrack, 0, 160⟩, []⟩ (by decide),
    C4_file_decoder_orchestration.2.2.2 [0] ⟨.SingleTrack, 2, 160⟩ (by decide)⟩
  exact C4_file_decoder_orchestration.2.1
    [77, 84, 114, 107, 0, 0, 0, 0, 0, 0, 0, 0, 0, 0, 9, 9, 9, 9, 0, 0, 0, 0]
    ⟨.SingleTrack, 2, 160⟩ 0 14 22 ⟨0, []⟩
    (by rw [hta]; rfl) (by rw [hptB]) (by rw [hta]; rfl)

-- Byte assembly arithmetic and a closed form for parse_header.

theorem be_bytes_to_sum {a b : Nat} (k : Nat) (hb : b < 2 ^ k) :
    (a <<< k) ||| b = 2 ^ k * a + b := by
  rw [Nat.shiftLeft_eq, Nat.mul_comm]
  exact (Nat.mul_add_lt_is_or hb a).symm

theorem be32_value {b4 b5 b6 b7 : Nat} (h5 : b5 < 256) (h6 : b6 < 256) (h7 : b7 < 256) :
    (b4 <<< 24 ||| b5 <<< 16 ||| b6 <<< 8 ||| b7) =
      16777216 * b4 + 65536 * b5 + 256 * b6 + b7 := by
  rw [Nat.lor_assoc, Nat.lor_assoc]
  rw [be_bytes_to_sum 8 (show b7 < 2 ^ 8 by norm_num; omega)]
  rw [be_bytes_to_sum 16 (show 2 ^ 8 * b6 + b7 < 2 ^ 16 by norm_num; omega)]
  rw [be_bytes_to_sum 24 (show 2 ^ 16 * b5 + (2 ^ 8 * b6 + b7) < 2 ^ 24 by norm_num; omega)]
  norm_num
  omega

theorem be32_eq_six {b4 b5 b6 b7 : Nat} (h5 : b5 < 256) (h6 : b6 < 256) (h7 : b7 < 256) :
    (b4 <<< 24 ||| b5 <<< 16 ||| b6 <<< 8 ||| b7) = 6 ↔
      (b4 = 0 ∧ b5 = 0 ∧ b6 = 0 ∧ b7 = 6) := by
  rw [be32_value h5 h6 h7]
  omega

theorem u16_eval {buf : List Nat} {off a b : Nat}
    (ha : buf.get? off = some a) (hb : buf.get? (off + 1) = some b) :
    u16_from_u8_at buf off = .ok (a <<< 8 ||| b) := by
  unfold u16_from_u8_at
  rw [byteAt_eq_ok ha, ok_bind, byteAt_eq_ok hb, ok_bind, pure_eq_ok]

theorem u32_eval {buf : List Nat} {off a b c d : Nat}
    (ha : buf.get? off = some a) (hb : buf.get? (off + 1) = some b)
    (hc : buf.get? (off + 2) = some c) (hd : buf.get? (off + 3) = some d) :
    u32_from_u8_at buf off = .ok (a <<< 24 ||| b <<< 16 ||| c <<< 8 ||| d) := by
  unfold u32_from_u8_at
  rw [byteAt_eq_ok ha, ok_bind, byteAt_eq_ok hb, ok_bind, byteAt_eq_ok hc, ok_bind,
    byteAt_eq_ok hd, ok_bind, pure_eq_ok]

theorem parse_header_eval {buf : List Nat}
    {b0 b1 b2 b3 b4 b5 b6 b7 b8 b9 b10 b11 b12 b13 : Nat}
    (h0 : buf.get? 0 = some b0) (h1 : buf.get? 1 = some b1) (h2 : buf.get? 2 = some b2)
    (h3 : buf.get? 3 = some b3) (h4 : buf.get? 4 = some b4) (h5 : buf.get? 5 = some b5)
    (h6 : buf.get? 6 = some b6) (h7 : buf.get? 7 = some b7) (h8 : buf.get? 8 = some b8)
    (h9 : buf.get? 9 = some b9) (h10 : buf.get? 10 = some b10) (h11 : buf.get? 11 = some b11)
    (h12 : buf.get? 12 = some b12) (h13 : buf.get? 13 = some b13) :
    parse_header buf =
      (if b0 = 77 ∧ b1 = 84 ∧ b2 = 104 ∧ b3 = 100 ∧ b4 = 0 ∧ b5 = 0 ∧ b6 = 0 ∧ b7 = 6 then
        match file_format_from_u16 (b8 <<< 8 ||| b9) with
        | some x => .ok (some ⟨x, b10 <<< 8 ||| b11, b12 <<< 8 ||| b13⟩)
        | none => .ok none
      else
        .ok none) := by
  unfold parse_header
  rw [byteAt_eq_ok h0, byteAt_eq_ok h1, byteAt_eq_ok h2, byteAt_eq_ok h3,
    byteAt_eq_ok h4, byteAt_eq_ok h5, byteAt_eq_ok h6, byteAt_eq_ok h7,
    u16_eval h8 h9, u16_eval h10 h11, u16_eval h12 h13]
  simp only [ok_bind]
  by_cases e0 : b0 = 77
  case neg => simp [e0, pure_eq_ok, ok_bind]
  subst e0
  by_cases e1 : b1 = 84
  case neg => simp [e1, pure_eq_ok, ok_bind]
  subst e1
  by_cases e2 : b2 = 104
  case neg => simp [e2, pure_eq_ok, ok_bind]
  subst e2
  by_cases e3 : b3 = 100
  case neg => simp [e3, pure_eq_ok, ok_bind]
  subst e3
  by_cases e4 : b4 = 0
  case neg => simp [e4, pure_eq_ok, ok_bind]
  subst e4
  by_cases e5 : b5 = 0
  case neg => simp [e5, pure_eq_ok, ok_bind]
  subst e5
  by_cases e6 : b6 = 0
  case neg => simp [e6, pure_eq_ok, ok_bind]
  subst e6
  by_cases e7 : b7 = 6
  case neg => simp [e7, pure_eq_ok, ok_bind]
  subst e7
  simp [ok_bind, pure_eq_ok]

/-- C5.  parse_header on a buffer of at least 14 bytes succeeds exactly when
the magic is M, T, h, d, the big endian 32 bit field at bytes 4 to 7 equals 6
and the big endian 16 bit format code at bytes 8 to 9 is 1, 2 or 3; on
success the header fields are the three big endian 16 bit fields at bytes
8 to 9, 10 to 11 and 12 to 13.  The two concrete byte sequences of the spec
behave as claimed. -/
theorem C5_parse_header_characterization :
    (∀ buf : List Nat, 14 ≤ buf.length → (∀ b ∈ buf, b < 256) →
      (((∃ h, parse_header buf = .ok (some h)) ↔
         (buf.get? 0 = some 77 ∧ buf.get? 1 = some 84 ∧ buf.get? 2 = some 104 ∧
          buf.get? 3 = some 100 ∧ u32_from_u8_at buf 4 = .ok 6 ∧
          (u16_from_u8_at buf 8 = .ok 1 ∨ u16_from_u8_at buf 8 = .ok 2 ∨
           u16_from_u8_at buf 8 = .ok 3))) ∧
       (∀ h, parse_header buf = .ok (some h) →
         ((h.file_format = .SingleTrack ∧ u16_from_u8_at buf 8 = .ok 1) ∨
          (h.file_format = .MultipleSynchronous ∧ u16_from_u8_at buf 8 = .ok 2) ∨
          (h.file_format = .MultipleAsynchronous ∧ u16_from_u8_at buf 8 = .ok 3)) ∧
         u16_from_u8_at buf 10 = .ok h.num_tracks ∧
         u16_from_u8_at buf 12 = .ok h.ticks_per_quarter))) ∧
    parse_header [0x4D, 0x54, 0x68, 0x64, 0, 0, 0, 6, 0, 1, 0, 5, 0, 0xA0] =
      .ok (some ⟨.SingleTrack, 5, 160⟩) ∧
    parse_header [0x4D, 0x34, 0x68, 0x64, 0, 0, 0, 6, 0, 1, 0, 5, 0, 0xA0] = .ok none := by
  refine ⟨?_, by decide, by decide⟩
  intro buf hlen hbytes
  have ex : ∀ i, i < 14 → ∃ b, buf.get? i = some b ∧ b < 256 := by
    intro i hi
    cases hq : buf.get? i with
    | none =>
      rw [List.get?_eq_none] at hq
      omega
    | some b =>
      exact ⟨b, rfl, hbytes b (List.get?_mem hq)⟩
  obtain ⟨B0, g0, l0⟩ := ex 0 (by norm_num)
  obtain ⟨B1, g1, l1⟩ := ex 1 (by norm_num)
  obtain ⟨B2, g2, l2⟩ := ex 2 (by norm_num)
  obtain ⟨B3, g3, l3⟩ := ex 3 (by norm_num)
  obtain ⟨B4, g4, l4⟩ := ex 4 (by norm_num)
  obtain ⟨B5, g5, l5⟩ := ex 5 (by norm_num)
  obtain ⟨B6, g6, l6⟩ := ex 6 (by norm_num)
  obtain ⟨B7, g7, l7⟩ := ex 7 (by norm_num)
  obtain ⟨B8, g8, l8⟩ := ex 8 (by norm_num)
  obtain ⟨B9, g9, l9⟩ := ex 9 (by norm_num)
  obtain ⟨B10, g10, l10⟩ := ex 10 (by norm_num)
  obtain ⟨B11, g11, l11⟩ := ex 11 (by norm_num)
  obtain ⟨B12, g12, l12⟩ := ex 12 (by norm_num)
  obtain ⟨B13, g13, l13⟩ := ex 13 (by norm_num)
  have heval := parse_header_eval g0 g1 g2 g3 g4 g5 g6 g7 g8 g9 g10 g11 g12 g13
  have hu32 : u32_from_u8_at buf 4 = .ok (B4 <<< 24 ||| B5 <<< 16 ||| B6 <<< 8 ||| B7) :=
    u32_eval g4 g5 g6 g7
  have hu16_8 : u16_from_u8_at buf 8 = .ok (B8 <<< 8 ||| B9) := u16_eval g8 g9
  have hu16_10 : u16_from_u8_at buf 10 = .ok (B10 <<< 8 ||| B11) := u16_eval g10 g11
  have hu16_12 : u16_from_u8_at buf 12 = .ok (B12 <<< 8 ||| B13) := u16_eval g12 g13
  constructor
  · constructor
    · rintro ⟨hh, hph⟩
      rw [heval] at hph
      by_cases hcond : B0 = 77 ∧ B1 = 84 ∧ B2 = 104 ∧ B3 = 100 ∧ B4 = 0 ∧ B5 = 0 ∧
          B6 = 0 ∧ B7 = 6
      case neg => rw [if_neg hcond] at hph; exact absurd hph (by simp)
      obtain ⟨c0, c1, c2, c3, c4, c5, c6, c7⟩ := hcond
      refine ⟨by rw [g0, c0], by rw [g1, c1], by rw [g2, c2], by rw [g3, c3], ?_, ?_⟩
      · rw [hu32, c4, c5, c6, c7]; rfl
      · rw [if_pos ⟨c0, c1, c2, c3, c4, c5, c6, c7⟩] at hph
        cases hff : file_format_from_u16 (B8 <<< 8 ||| B9) with
        | none => rw [hff] at hph; exact absurd hph (by simp)
        | some x =>
          unfold file_format_from_u16 at hff
          split at hff
          · left; rw [hu16_8]; rename_i heq; rw [heq]
          · right; left; rw [hu16_8]; rename_i heq; rw [heq]
          · right; right; rw [hu16_8]; rename_i heq; rw [heq]
          · exact absurd hff (by simp)
    · rintro ⟨r0, r1, r2, r3, r4, rfmt⟩
      have c0 : B0 = 77 := Option.some.inj (g0.symm.trans r0)
      have c1 : B1 = 84 := Option.some.inj (g1.symm.trans r1)
      have c2 : B2 = 104 := Option.some.inj (g2.symm.trans r2)
      have c3 : B3 = 100 := Option.some.inj (g3.symm.trans r3)
      have hv32 : (B4 <<< 24 ||| B5 <<< 16 ||| B6 <<< 8 ||| B7) = 6 := by
        rw [hu32] at r4
        simp only [Except.ok.injEq] at r4
        exact r4
      obtain ⟨c4, c5, c6, c7⟩ := (be32_eq_six l5 l6 l7).mp hv32
      rw [heval, if_pos ⟨c0, c1, c2, c3, c4, c5, c6, c7⟩]
      rcases rfmt with r | r | r
      · have hv : B8 <<< 8 ||| B9 = 1 := by
          rw [hu16_8] at r
          simp only [Except.ok.injEq] at r
          exact r
        rw [hv]
        exact ⟨⟨.SingleTrack, B10 <<< 8 ||| B11, B12 <<< 8 ||| B13⟩, rfl⟩
      · have hv : B8 <<< 8 ||| B9 = 2 := by
          rw [hu16_8] at r
          simp only [Except.ok.injEq] at r
          exact r
        rw [hv]
        exact ⟨⟨.MultipleSynchronous, B10 <<< 8 ||| B11, B12 <<< 8 ||| B13⟩, rfl⟩
      · have hv : B8 <<< 8 ||| B9 = 3 := by
          rw [hu16_8] at r
          simp only [Except.ok.injEq] at r
          exact r
        rw [hv]
        exact ⟨⟨.MultipleAsynchronous, B10 <<< 8 ||| B11, B12 <<< 8 ||| B13⟩, rfl⟩
  · intro h hph
    rw [heval] at hph
    by_cases hcond : B0 = 77 ∧ B1 = 84 ∧ B2 = 104 ∧ B3 = 100 ∧ B4 = 0 ∧ B5 = 0 ∧
        B6 = 0 ∧ B7 = 6
    case neg => rw [if_neg hcond] at hph; exact absurd hph (by simp)
    rw [if_pos hcond] at hph
    cases hff : file_format_from_u16 (B8 <<< 8 ||| B9) with
    | none => rw [hff] at hph; exact absurd hph (by simp)
    | some x =>
      rw [hff] at hph
      simp only [Except.ok.injEq, Option.some.injEq] at hph
      subst hph
      refine ⟨?_, by rw [hu16_10], by rw [hu16_12]⟩
      unfold file_format_from_u16 at hff
      split at hff
      · left
        simp only [Option.some.injEq] at hff
        rename_i heq
        exact ⟨by rw [← hff], by rw [hu16_8, heq]⟩
      · right; left
        simp only [Option.some.injEq] at hff
        rename_i heq
        exact ⟨by rw [← hff], by rw [hu16_8, heq]⟩
      · right; right
        simp only [Option.some.injEq] at hff
        rename_i heq
        exact ⟨by rw [← hff], by rw [hu16_8, heq]⟩
      · exact absurd hff (by simp)

theorem C5_witness :
    ∃ h, parse_header [0x4D, 0x54, 0x68, 0x64, 0, 0, 0, 6, 0, 2, 0x0A, 0, 1, 0] =
      .ok (some h) :=
  ((C5_parse_header_characterization.1
      [0x4D, 0x54, 0x68, 0x64, 0, 0, 0, 6, 0, 2, 0x0A, 0, 1, 0]
      (by decide) (by decide)).1).mpr
    ⟨by decide, by decide, by decide, by decide, by decide,
     Or.inr (Or.inl (by decide))⟩
